import Mathlib

/-!
Verification of the identicon derivation prototypes in
`docs/investigations/workspace_identity/prototypes/` (`hybrid_gen.py` and
`identicon_gen.py`).

The Python code derives a `(color, grid)` pair from a workspace name:
`h = sha256(name.encode('utf-8')).digest()` feeds a hue/saturation/lightness
color (bytes 0..3, converted with `colorsys.hls_to_rgb`) and a mirror-symmetric
boolean grid (a little-endian integer read from bytes 4..8).

Embedding choices:
* strings are represented by their UTF-8 byte sequences (`List Nat`, each
  entry a byte value);
* `hashlib.sha256` is modelled by a complete executable SHA-256 over byte
  lists (FIPS 180-4), so concrete inputs evaluate to their real digests;
* Python floats are modelled by exact rationals `ℚ` (decimal literals such as
  `0.3` are exact in this model);
* Python `int()` truncation toward zero is modelled by `pyInt`.
-/

set_option maxRecDepth 100000
set_option maxHeartbeats 2000000

namespace Identicon

/-! ## SHA-256 (model of `hashlib.sha256(...).digest()`) -/

/-- Truncation to a 32-bit word. -/
def w32 (x : Nat) : Nat := x % 4294967296

/-- Right rotation of a 32-bit word by `n` places. -/
def rotr (n x : Nat) : Nat := w32 ((x >>> n) ||| (x <<< (32 - n)))

/-- The SHA-256 `Ch` function. -/
def shaCh (x y z : Nat) : Nat := (x &&& y) ^^^ ((x ^^^ 4294967295) &&& z)

/-- The SHA-256 `Maj` function. -/
def shaMaj (x y z : Nat) : Nat := (x &&& y) ^^^ (x &&& z) ^^^ (y &&& z)

/-- The SHA-256 `Σ₀` function. -/
def bigS0 (x : Nat) : Nat := rotr 2 x ^^^ rotr 13 x ^^^ rotr 22 x

/-- The SHA-256 `Σ₁` function. -/
def bigS1 (x : Nat) : Nat := rotr 6 x ^^^ rotr 11 x ^^^ rotr 25 x

/-- The SHA-256 `σ₀` function. -/
def smallS0 (x : Nat) : Nat := rotr 7 x ^^^ rotr 18 x ^^^ (x >>> 3)

/-- The SHA-256 `σ₁` function. -/
def smallS1 (x : Nat) : Nat := rotr 17 x ^^^ rotr 19 x ^^^ (x >>> 10)

/-- The 64 SHA-256 round constants (FIPS 180-4, written in decimal). -/
def shaK : List Nat :=
  [1116352408, 1899447441, 3049323471, 3921009573, 961987163, 1508970993,
   2453635748, 2870763221, 3624381080, 310598401, 607225278, 1426881987,
   1925078388, 2162078206, 2614888103, 3248222580, 3835390401, 4022224774,
   264347078, 604807628, 770255983, 1249150122, 1555081692, 1996064986,
   2554220882, 2821834349, 2952996808, 3210313671, 3336571891, 3584528711,
   113926993, 338241895, 666307205, 773529912, 1294757372, 1396182291,
   1695183700, 1986661051, 2177026350, 2456956037, 2730485921, 2820302411,
   3259730800, 3345764771, 3516065817, 3600352804, 4094571909, 275423344,
   430227734, 506948616, 659060556, 883997877, 958139571, 1322822218,
   1537002063, 1747873779, 1955562222, 2024104815, 2227730452, 2361852424,
   2428436474, 2756734187, 3204031479, 3329325298]

/-- The eight 32-bit words of SHA-256 chaining state. -/
structure Hash8 where
  h0 : Nat
  h1 : Nat
  h2 : Nat
  h3 : Nat
  h4 : Nat
  h5 : Nat
  h6 : Nat
  h7 : Nat
deriving DecidableEq

/-- The SHA-256 initial hash value (FIPS 180-4, written in decimal). -/
def shaInit : Hash8 :=
  ⟨1779033703, 3144134277, 1013904242, 2773480762,
   1359893119, 2600822924, 528734635, 1541459225⟩

/-- Group a byte list into big-endian 32-bit words (four bytes per word). -/
def toWordsBE : List Nat → List Nat
  | a :: b :: c :: d :: rest =>
      ((a <<< 24) ||| (b <<< 16) ||| (c <<< 8) ||| d) :: toWordsBE rest
  | _ => []

/-- SHA-256 message padding: append `0x80`, zero bytes up to 56 mod 64, and
the 64-bit big-endian bit length. -/
def padMessage (msg : List Nat) : List Nat :=
  let L := msg.length
  let k := (119 - (L % 64)) % 64
  let bitLen := 8 * L
  msg ++ [128] ++ List.replicate k 0 ++
    [(bitLen >>> 56) % 256, (bitLen >>> 48) % 256, (bitLen >>> 40) % 256,
     (bitLen >>> 32) % 256, (bitLen >>> 24) % 256, (bitLen >>> 16) % 256,
     (bitLen >>> 8) % 256, bitLen % 256]

/-- Extend a 16-word block to the 64-word SHA-256 message schedule. -/
def schedule (block : List Nat) : List Nat :=
  (List.range 48).foldl (fun ws _ =>
    let n := ws.length
    ws ++ [w32 (smallS1 (ws.getD (n - 2) 0) + ws.getD (n - 7) 0 +
                smallS0 (ws.getD (n - 15) 0) + ws.getD (n - 16) 0)]) block

/-- One SHA-256 compression round on the working variables. -/
def shaRound (st : Hash8) (k w : Nat) : Hash8 :=
  let t1 := w32 (st.h7 + bigS1 st.h4 + shaCh st.h4 st.h5 st.h6 + k + w)
  let t2 := w32 (bigS0 st.h0 + shaMaj st.h0 st.h1 st.h2)
  ⟨w32 (t1 + t2), st.h0, st.h1, st.h2, w32 (st.h3 + t1), st.h4, st.h5, st.h6⟩

/-- Compress one 16-word block into the chaining state. -/
def compress (st : Hash8) (block : List Nat) : Hash8 :=
  let ws := schedule block
  let f := (List.zip shaK ws).foldl (fun s kw => shaRound s kw.1 kw.2) st
  ⟨w32 (st.h0 + f.h0), w32 (st.h1 + f.h1), w32 (st.h2 + f.h2),
   w32 (st.h3 + f.h3), w32 (st.h4 + f.h4), w32 (st.h5 + f.h5),
   w32 (st.h6 + f.h6), w32 (st.h7 + f.h7)⟩

/-- Serialize the final chaining state as the 32 big-endian digest bytes. -/
def digestBytes (st : Hash8) : List Nat :=
  [(st.h0 >>> 24) % 256, (st.h0 >>> 16) % 256, (st.h0 >>> 8) % 256, st.h0 % 256,
   (st.h1 >>> 24) % 256, (st.h1 >>> 16) % 256, (st.h1 >>> 8) % 256, st.h1 % 256,
   (st.h2 >>> 24) % 256, (st.h2 >>> 16) % 256, (st.h2 >>> 8) % 256, st.h2 % 256,
   (st.h3 >>> 24) % 256, (st.h3 >>> 16) % 256, (st.h3 >>> 8) % 256, st.h3 % 256,
   (st.h4 >>> 24) % 256, (st.h4 >>> 16) % 256, (st.h4 >>> 8) % 256, st.h4 % 256,
   (st.h5 >>> 24) % 256, (st.h5 >>> 16) % 256, (st.h5 >>> 8) % 256, st.h5 % 256,
   (st.h6 >>> 24) % 256, (st.h6 >>> 16) % 256, (st.h6 >>> 8) % 256, st.h6 % 256,
   (st.h7 >>> 24) % 256, (st.h7 >>> 16) % 256, (st.h7 >>> 8) % 256, st.h7 % 256]

/-- SHA-256 of a byte sequence, as its 32 digest bytes.  Input entries are
reduced mod 256, as Python's `bytes` type guarantees byte range. -/
def sha256 (msgIn : List Nat) : List Nat :=
  let msg := msgIn.map (· % 256)
  let ws := toWordsBE (padMessage msg)
  let nblocks := ws.length / 16
  let final := (List.range nblocks).foldl
    (fun st i => compress st ((ws.drop (16 * i)).take 16)) shaInit
  digestBytes final

/-! ## colorsys.hls_to_rgb (model over exact rationals) -/

/-- Helper `_v` of `colorsys.hls_to_rgb`.  Python's `hue % 1.0` is
`hue - ⌊hue⌋` for a real (float) `hue`. -/
def hlsV (m1 m2 hue : ℚ) : ℚ :=
  let hue := hue - ⌊hue⌋
  if hue < 1/6 then m1 + (m2 - m1) * hue * 6
  else if hue < 1/2 then m2
  else if hue < 2/3 then m1 + (m2 - m1) * (2/3 - hue) * 6
  else m1

/-- Model of `colorsys.hls_to_rgb` (HLS color space to RGB, channels in
`[0, 1]`), with Python's float constants `ONE_THIRD`, `ONE_SIXTH`,
`TWO_THIRD` read as exact rationals. -/
def hls_to_rgb (h l s : ℚ) : ℚ × ℚ × ℚ :=
  if s = 0 then (l, l, l)
  else
    let m2 := if l ≤ 1/2 then l * (1 + s) else l + s - l * s
    let m1 := 2 * l - m2
    (hlsV m1 m2 (h + 1/3), hlsV m1 m2 h, hlsV m1 m2 (h - 1/3))

/-- Python `int()` applied to a number: truncation toward zero. -/
def pyInt (q : ℚ) : ℤ := if 0 ≤ q then ⌊q⌋ else ⌈q⌉

/-! ## identicon_data (hybrid_gen.py) -/

/-- Model of `int.from_bytes(bs, 'little')`. -/
def int_from_bytes_le : List Nat → Nat
  | [] => 0
  | b :: rest => b + 256 * int_from_bytes_le rest

/-- Hue from the digest: `hue = (h[0] | (h[1] << 8)) % 360`
(hybrid_gen.py line 21). -/
def hueOf (h : List Nat) : Nat := (h.getD 0 0 ||| (h.getD 1 0 <<< 8)) % 360

/-- Saturation from the digest: `sat = 0.5 + (h[2] / 255.0) * 0.3`
(hybrid_gen.py line 22). -/
def satOf (h : List Nat) : ℚ := 0.5 + ((h.getD 2 0 : ℚ) / 255) * 0.3

/-- Lightness from the digest: `light = 0.4 + (h[3] / 255.0) * 0.25`
(hybrid_gen.py line 23). -/
def lightOf (h : List Nat) : ℚ := 0.4 + ((h.getD 3 0 : ℚ) / 255) * 0.25

/-- Foreground color from the digest (hybrid_gen.py lines 25-26):
`r, g, b = colorsys.hls_to_rgb(hue / 360.0, light, sat)` and
`fg_color = (int(r * 255), int(g * 255), int(b * 255))`. -/
def fgColorOf (h : List Nat) : ℤ × ℤ × ℤ :=
  let rgb := hls_to_rgb ((hueOf h : ℚ) / 360) (lightOf h) (satOf h)
  (pyInt (rgb.1 * 255), pyInt (rgb.2.1 * 255), pyInt (rgb.2.2 * 255))

/-- Assignment `grid[r][c] = v` on a nested list (no-op out of range, like
the in-range Python assignment restricted to valid indices). -/
def setCell (g : List (List Bool)) (r c : Nat) (v : Bool) : List (List Bool) :=
  g.set r ((g.getD r []).set c v)

/-- The grid-filling loops of `identicon_data` (hybrid_gen.py lines 32-38):
for each `row < grid_size` and `col < half`, set `grid[row][col]` and its
mirror `grid[row][grid_size-1-col]` to bit `row * half + col` of `bits`. -/
def fillGrid (grid_size half bits : Nat) : List (List Bool) :=
  let grid := List.replicate grid_size (List.replicate grid_size false)
  (List.range grid_size).foldl (fun grid row =>
    (List.range half).foldl (fun grid col =>
      let bit_index := row * half + col
      let onBit := bits &&& (1 <<< bit_index) != 0
      let grid := setCell grid row col onBit
      setCell grid row (grid_size - 1 - col) onBit) grid) grid

/-- Model of `identicon_data(name, grid_size)` from `hybrid_gen.py`.  The
`name` argument is the UTF-8 byte sequence of the Python string. -/
def identicon_data (name : List Nat) (grid_size : Nat := 5) :
    (ℤ × ℤ × ℤ) × List (List Bool) :=
  let h := sha256 name
  let fg_color := fgColorOf h
  let half := (grid_size + 1) / 2
  let bits := int_from_bytes_le ((h.drop 4).take 4)
  (fg_color, fillGrid grid_size half bits)

/-! ## generate_identicon_data (identicon_gen.py) -/

/-- Model of `generate_identicon_data(name)` from `identicon_gen.py`: same
color derivation, but a fixed 5×5 grid whose 15 pattern bits come from the
two-byte little-endian read `bits = h[4] | (h[5] << 8)`. -/
def generate_identicon_data (name : List Nat) :
    (ℤ × ℤ × ℤ) × List (List Bool) :=
  let h := sha256 name
  let fg_color := fgColorOf h
  let bits := h.getD 4 0 ||| (h.getD 5 0 <<< 8)
  (fg_color, fillGrid 5 3 bits)

/-! ## List helper lemmas -/

theorem getD_set_self {α : Type} (l : List α) (i : Nat) (a d : α) (h : i < l.length) :
    (l.set i a).getD i d = a := by
  rw [List.getD_eq_getElem?_getD, List.getElem?_set_self h]
  rfl

theorem getD_set_ne {α : Type} (l : List α) {i j : Nat} (h : i ≠ j) (a d : α) :
    (l.set i a).getD j d = l.getD j d := by
  rw [List.getD_eq_getElem?_getD, List.getElem?_set_ne h, ← List.getD_eq_getElem?_getD]

theorem set_getD_self {α : Type} (l : List α) (i : Nat) (d : α) :
    l.set i (l.getD i d) = l := by
  rcases Nat.lt_or_ge i l.length with h | h
  · apply List.ext_getElem (by simp)
    intro n h1 h2
    rw [List.getElem_set]
    split
    · next he => subst he; exact List.getD_eq_getElem l d h
    · rfl
  · exact List.set_eq_of_length_le h

theorem foldl_length_inv {α β : Type} (xs : List β) (f : List α → β → List α)
    (hf : ∀ g x, (f g x).length = g.length) (g : List α) :
    (xs.foldl f g).length = g.length := by
  induction xs generalizing g with
  | nil => rfl
  | cons x xs ih => rw [List.foldl_cons, ih, hf]

theorem getD_replicate {α : Type} (n i : Nat) (a : α) (d : α) (h : i < n) :
    (List.replicate n a).getD i d = a := by
  rw [List.getD_eq_getElem (List.replicate n a) d (by simpa using h),
    List.getElem_replicate]

/-! ## Digest facts -/

theorem sha256_eq_digestBytes (name : List Nat) :
    ∃ st : Hash8, sha256 name = digestBytes st := ⟨_, rfl⟩

theorem mem_digestBytes_lt (st : Hash8) : ∀ b ∈ digestBytes st, b < 256 := by
  intro b hb
  simp only [digestBytes, List.mem_cons, List.not_mem_nil, or_false] at hb
  rcases hb with rfl | rfl | rfl | rfl | rfl | rfl | rfl | rfl | rfl | rfl | rfl |
    rfl | rfl | rfl | rfl | rfl | rfl | rfl | rfl | rfl | rfl | rfl | rfl | rfl |
    rfl | rfl | rfl | rfl | rfl | rfl | rfl | rfl <;>
    exact Nat.mod_lt _ (by norm_num)

theorem digestBytes_getD_lt (st : Hash8) (i : Nat) : (digestBytes st).getD i 0 < 256 := by
  rw [List.getD_eq_getElem?_getD]
  cases h : (digestBytes st)[i]? with
  | none => norm_num
  | some b => simpa using mem_digestBytes_lt st b (List.getElem?_mem h)

theorem sha256_length (name : List Nat) : (sha256 name).length = 32 := by
  obtain ⟨st, h⟩ := sha256_eq_digestBytes name
  rw [h]
  rfl

theorem sha256_getD_lt (name : List Nat) (i : Nat) : (sha256 name).getD i 0 < 256 := by
  obtain ⟨st, h⟩ := sha256_eq_digestBytes name
  rw [h]
  exact digestBytes_getD_lt st i

theorem digestBytes_drop4_take4 (st : Hash8) :
    ((digestBytes st).drop 4).take 4 =
      [(digestBytes st).getD 4 0, (digestBytes st).getD 5 0,
       (digestBytes st).getD 6 0, (digestBytes st).getD 7 0] := rfl

theorem sha256_bits_eq (name : List Nat) :
    int_from_bytes_le (((sha256 name).drop 4).take 4) =
      (sha256 name).getD 4 0 + 256 * ((sha256 name).getD 5 0 +
        256 * ((sha256 name).getD 6 0 + 256 * (sha256 name).getD 7 0)) := by
  obtain ⟨st, h⟩ := sha256_eq_digestBytes name
  rw [h, digestBytes_drop4_take4]
  simp [int_from_bytes_le]

theorem sha256_bits_lt (name : List Nat) :
    int_from_bytes_le (((sha256 name).drop 4).take 4) < 4294967296 := by
  rw [sha256_bits_eq]
  have h4 := sha256_getD_lt name 4
  have h5 := sha256_getD_lt name 5
  have h6 := sha256_getD_lt name 6
  have h7 := sha256_getD_lt name 7
  omega

/-! ## Bit-manipulation lemmas -/

theorem and_one_shift (bits i : Nat) : (bits &&& (1 <<< i) != 0) = bits.testBit i := by
  rw [Nat.one_shiftLeft, Nat.and_two_pow]
  cases h : bits.testBit i <;> simp [Nat.pow_eq_zero]

theorem shiftRight_and_one (bits i : Nat) :
    ((bits >>> i) &&& 1 ≠ 0) ↔ bits.testBit i = true := by
  rw [Nat.and_one_is_mod, Nat.testBit_to_div_mod, Nat.shiftRight_eq_div_pow,
    decide_eq_true_eq]
  omega

theorem lor_shift8_eq (a b : Nat) (ha : a < 256) : a ||| (b <<< 8) = a + b * 256 := by
  apply Nat.eq_of_testBit_eq
  intro i
  rcases Nat.lt_or_ge i 8 with hi | hi
  · rw [Nat.testBit_lor, Nat.testBit_shiftLeft]
    have h2 : decide (i ≥ 8) = false := by simp; omega
    rw [h2]
    simp only [Bool.false_and, Bool.or_false]
    have e : (a + b * 256) % 2 ^ 8 = a := by omega
    have hm := Nat.testBit_mod_two_pow (a + b * 256) 8 i
    rw [e] at hm
    rw [hm]
    simp [hi]
  · obtain ⟨j, rfl⟩ : ∃ j, i = 8 + j := ⟨i - 8, by omega⟩
    rw [Nat.testBit_lor, Nat.testBit_shiftLeft]
    have h2 : decide (8 + j ≥ 8) = true := by simp
    rw [h2]
    simp only [Bool.true_and, Nat.add_sub_cancel_left]
    have hlt : a < 2 ^ (8 + j) := by
      calc a < 256 := ha
        _ = 2 ^ 8 := by norm_num
        _ ≤ 2 ^ (8 + j) := Nat.pow_le_pow_right (by norm_num) (by omega)
    rw [Nat.testBit_eq_false_of_lt hlt, Bool.false_or]
    have hs : (a + b * 256).testBit (8 + j) = ((a + b * 256) >>> 8).testBit j :=
      (Nat.testBit_shiftRight _).symm
    rw [hs, Nat.shiftRight_eq_div_pow]
    have e : (a + b * 256) / 2 ^ 8 = b := by omega
    rw [e]

/-! ## Grid characterization -/

/-- The first `k` column iterations of one row of the fill loop, with the
bit test written via `Nat.testBit`. -/
def rowFillK (gs half bits row k : Nat) (l : List Bool) : List Bool :=
  (List.range k).foldl (fun l col =>
    (l.set col (bits.testBit (row * half + col))).set (gs - 1 - col)
      (bits.testBit (row * half + col))) l

/-- One full row of the fill loop. -/
def rowFill (gs half bits row : Nat) (l : List Bool) : List Bool :=
  rowFillK gs half bits row half l

theorem setCell_setCell (g : List (List Bool)) (row c1 c2 : Nat) (v1 v2 : Bool) :
    setCell (setCell g row c1 v1) row c2 v2 =
      g.set row (((g.getD row []).set c1 v1).set c2 v2) := by
  unfold setCell
  rcases Nat.lt_or_ge row g.length with h | h
  · rw [getD_set_self _ _ _ _ h, List.set_set]
  · simp only [List.set_eq_of_length_le h]

theorem foldl_set_row (cs : List Nat) (f : List Bool → Nat → List Bool)
    (g : List (List Bool)) (row : Nat) :
    cs.foldl (fun g c => g.set row (f (g.getD row []) c)) g =
      g.set row (cs.foldl f (g.getD row [])) := by
  induction cs generalizing g with
  | nil => exact (set_getD_self g row []).symm
  | cons c cs ih =>
    simp only [List.foldl_cons]
    rw [ih]
    rcases Nat.lt_or_ge row g.length with h | h
    · rw [getD_set_self _ _ _ _ h, List.set_set]
    · simp only [List.set_eq_of_length_le h]

theorem rowFillK_length (gs half bits row k : Nat) (l : List Bool) :
    (rowFillK gs half bits row k l).length = l.length := by
  unfold rowFillK
  exact foldl_length_inv _ _ (fun g x => by simp) l

theorem rowFillK_succ (gs half bits row k : Nat) (l : List Bool) :
    rowFillK gs half bits row (k + 1) l =
      ((rowFillK gs half bits row k l).set k (bits.testBit (row * half + k))).set
        (gs - 1 - k) (bits.testBit (row * half + k)) := by
  unfold rowFillK
  rw [List.range_succ, List.foldl_append]
  simp

theorem rowFillK_getD (gs half bits row : Nat) (hhalf : half = (gs + 1) / 2) :
    ∀ k, k ≤ half → ∀ l : List Bool, l.length = gs → ∀ p, p < gs →
      (rowFillK gs half bits row k l).getD p false =
        if p < k then bits.testBit (row * half + p)
        else if gs - 1 - p < k then bits.testBit (row * half + (gs - 1 - p))
        else l.getD p false := by
  intro k
  induction k with
  | zero =>
    intro _ l hl p hp
    simp [rowFillK]
  | succ k ih =>
    intro hk l hl p hp
    rw [rowFillK_succ]
    have hRlen : (rowFillK gs half bits row k l).length = gs := by
      rw [rowFillK_length, hl]
    by_cases hp1 : p = gs - 1 - k
    · subst hp1
      rw [getD_set_self _ _ _ _ (by rw [List.length_set, hRlen]; omega)]
      by_cases hq : gs - 1 - k < k + 1
      · have e : gs - 1 - k = k := by omega
        rw [if_pos hq, e]
      · rw [if_neg hq, if_pos (by omega), show gs - 1 - (gs - 1 - k) = k by omega]
    · rw [getD_set_ne _ (fun he => hp1 he.symm) _ _]
      by_cases hp2 : p = k
      · subst hp2
        rw [getD_set_self _ _ _ _ (by rw [hRlen]; omega), if_pos (by omega)]
      · rw [getD_set_ne _ (fun he => hp2 he.symm) _ _,
          ih (by omega) l hl p hp]
        split_ifs <;> first | rfl | (exfalso; omega)

theorem outer_foldl_getD (gs : Nat) (F : Nat → List Bool → List Bool) (L0 : List Bool) :
    ∀ k, k ≤ gs → ∀ r, r < gs →
      ((List.range k).foldl (fun g row => g.set row (F row (g.getD row [])))
          (List.replicate gs L0)).getD r [] = if r < k then F r L0 else L0 := by
  intro k
  induction k with
  | zero =>
    intro _ r hr
    simp only [List.range_zero, List.foldl_nil, Nat.not_lt_zero, if_false]
    exact getD_replicate gs r L0 [] hr
  | succ k ih =>
    intro hk r hr
    rw [List.range_succ, List.foldl_append]
    simp only [List.foldl_cons, List.foldl_nil]
    have hkgs : k < gs := by omega
    have hSlen : ((List.range k).foldl (fun g row => g.set row (F row (g.getD row [])))
        (List.replicate gs L0)).length = gs := by
      rw [foldl_length_inv _ _ (fun g x => by simp) _]
      simp
    rw [show ((List.range k).foldl (fun g row => g.set row (F row (g.getD row [])))
        (List.replicate gs L0)).getD k [] = L0 by
      rw [ih (by omega) k hkgs, if_neg (by omega)]]
    by_cases hrk : r = k
    · subst hrk
      rw [getD_set_self _ _ _ _ (by rw [hSlen]; exact hkgs), if_pos (by omega)]
    · rw [getD_set_ne _ (fun he => hrk he.symm) _ _, ih (by omega) r hr]
      by_cases hr2 : r < k
      · rw [if_pos hr2, if_pos (by omega)]
      · rw [if_neg hr2, if_neg (by omega)]

theorem fillGrid_eq (gs half bits : Nat) :
    fillGrid gs half bits =
      (List.range gs).foldl
        (fun g row => g.set row (rowFill gs half bits row (g.getD row [])))
        (List.replicate gs (List.replicate gs false)) := by
  show (List.range gs).foldl
      (fun grid row => (List.range half).foldl
        (fun grid col =>
          setCell (setCell grid row col (bits &&& (1 <<< (row * half + col)) != 0))
            row (gs - 1 - col) (bits &&& (1 <<< (row * half + col)) != 0)) grid)
      (List.replicate gs (List.replicate gs false)) = _
  congr 1
  funext g row
  simp only [setCell_setCell, and_one_shift]
  exact foldl_set_row (List.range half)
    (fun l col => (l.set col (bits.testBit (row * half + col))).set (gs - 1 - col)
      (bits.testBit (row * half + col))) g row

theorem fillGrid_length (gs half bits : Nat) : (fillGrid gs half bits).length = gs := by
  rw [fillGrid_eq, foldl_length_inv _ _ (fun g x => by simp) _]
  simp

theorem fillGrid_row_length (gs half bits r : Nat) (hr : r < gs) :
    ((fillGrid gs half bits).getD r []).length = gs := by
  rw [fillGrid_eq,
    outer_foldl_getD gs (rowFill gs half bits) (List.replicate gs false) gs le_rfl r hr,
    if_pos hr]
  simp only [rowFill, rowFillK_length, List.length_replicate]

theorem fillGrid_getD (gs half bits : Nat) (hhalf : half = (gs + 1) / 2)
    (row col : Nat) (hr : row < gs) (hc : col < gs) :
    ((fillGrid gs half bits).getD row []).getD col false =
      if col < half then bits.testBit (row * half + col)
      else bits.testBit (row * half + (gs - 1 - col)) := by
  rw [fillGrid_eq,
    outer_foldl_getD gs (rowFill gs half bits) (List.replicate gs false) gs le_rfl row hr,
    if_pos hr,
    show rowFill gs half bits row (List.replicate gs false) =
      rowFillK gs half bits row half (List.replicate gs false) from rfl,
    rowFillK_getD gs half bits row hhalf half le_rfl (List.replicate gs false)
      (by simp) col hc]
  by_cases h2 : col < half
  · rw [if_pos h2, if_pos h2]
  · rw [if_neg h2, if_neg h2, if_pos (by omega)]

theorem fillGrid_symm (gs half bits : Nat) (hhalf : half = (gs + 1) / 2)
    (row col : Nat) (hr : row < gs) (hc : col < gs) :
    ((fillGrid gs half bits).getD row []).getD col false =
      ((fillGrid gs half bits).getD row []).getD (gs - 1 - col) false := by
  rw [fillGrid_getD gs half bits hhalf row col hr hc,
    fillGrid_getD gs half bits hhalf row (gs - 1 - col) hr (by omega)]
  split_ifs with h1 h2 h3
  · rw [show gs - 1 - col = col by omega]
  · rw [show gs - 1 - (gs - 1 - col) = col by omega]
  · rfl
  · exfalso; omega

/-! ## Color bounds -/

theorem hlsV_def (m1 m2 hue : ℚ) :
    hlsV m1 m2 hue =
      if hue - ⌊hue⌋ < 1/6 then m1 + (m2 - m1) * (hue - ⌊hue⌋) * 6
      else if hue - ⌊hue⌋ < 1/2 then m2
      else if hue - ⌊hue⌋ < 2/3 then m1 + (m2 - m1) * (2/3 - (hue - ⌊hue⌋)) * 6
      else m1 := rfl

theorem hls_to_rgb_def (h l s : ℚ) :
    hls_to_rgb h l s =
      if s = 0 then (l, l, l)
      else
        (hlsV (2 * l - (if l ≤ 1/2 then l * (1 + s) else l + s - l * s))
           (if l ≤ 1/2 then l * (1 + s) else l + s - l * s) (h + 1/3),
         hlsV (2 * l - (if l ≤ 1/2 then l * (1 + s) else l + s - l * s))
           (if l ≤ 1/2 then l * (1 + s) else l + s - l * s) h,
         hlsV (2 * l - (if l ≤ 1/2 then l * (1 + s) else l + s - l * s))
           (if l ≤ 1/2 then l * (1 + s) else l + s - l * s) (h - 1/3)) := rfl

theorem fgColorOf_def (h : List Nat) :
    fgColorOf h =
      (pyInt ((hls_to_rgb ((hueOf h : ℚ) / 360) (lightOf h) (satOf h)).1 * 255),
       pyInt ((hls_to_rgb ((hueOf h : ℚ) / 360) (lightOf h) (satOf h)).2.1 * 255),
       pyInt ((hls_to_rgb ((hueOf h : ℚ) / 360) (lightOf h) (satOf h)).2.2 * 255)) := rfl

theorem hlsV_bounds (m1 m2 hue : ℚ) (h0 : 0 ≤ m1) (h12 : m1 ≤ m2) (h1 : m2 ≤ 1) :
    0 ≤ hlsV m1 m2 hue ∧ hlsV m1 m2 hue ≤ 1 := by
  rw [hlsV_def]
  have hf0 : 0 ≤ hue - ⌊hue⌋ := by
    have := Int.floor_le hue
    linarith
  have hf1 : hue - ⌊hue⌋ < 1 := by
    have := Int.lt_floor_add_one hue
    linarith
  split_ifs with hA hB hC
  · constructor
    · nlinarith
    · nlinarith
  · exact ⟨le_trans h0 h12, h1⟩
  · constructor
    · nlinarith
    · nlinarith
  · exact ⟨h0, le_trans h12 h1⟩

theorem hls_to_rgb_bounds (h l s : ℚ) (hl0 : 0 ≤ l) (hl1 : l ≤ 1)
    (hs0 : 0 ≤ s) (hs1 : s ≤ 1) :
    (0 ≤ (hls_to_rgb h l s).1 ∧ (hls_to_rgb h l s).1 ≤ 1) ∧
    (0 ≤ (hls_to_rgb h l s).2.1 ∧ (hls_to_rgb h l s).2.1 ≤ 1) ∧
    (0 ≤ (hls_to_rgb h l s).2.2 ∧ (hls_to_rgb h l s).2.2 ≤ 1) := by
  rw [hls_to_rgb_def]
  split_ifs with hs hl
  · exact ⟨⟨hl0, hl1⟩, ⟨hl0, hl1⟩, ⟨hl0, hl1⟩⟩
  · have hm0 : 0 ≤ 2 * l - l * (1 + s) := by nlinarith
    have hm12 : 2 * l - l * (1 + s) ≤ l * (1 + s) := by nlinarith
    have hm1 : l * (1 + s) ≤ 1 := by nlinarith
    exact ⟨hlsV_bounds _ _ _ hm0 hm12 hm1, hlsV_bounds _ _ _ hm0 hm12 hm1,
      hlsV_bounds _ _ _ hm0 hm12 hm1⟩
  · have hm0 : 0 ≤ 2 * l - (l + s - l * s) := by nlinarith
    have hm12 : 2 * l - (l + s - l * s) ≤ l + s - l * s := by nlinarith
    have hm1 : l + s - l * s ≤ 1 := by nlinarith
    exact ⟨hlsV_bounds _ _ _ hm0 hm12 hm1, hlsV_bounds _ _ _ hm0 hm12 hm1,
      hlsV_bounds _ _ _ hm0 hm12 hm1⟩

theorem pyInt_eq_floor (q : ℚ) (h : 0 ≤ q) : pyInt q = ⌊q⌋ := if_pos h

theorem pyInt_bounds (q : ℚ) (h0 : 0 ≤ q) (h1 : q ≤ 255) :
    0 ≤ pyInt q ∧ pyInt q ≤ 255 := by
  rw [pyInt_eq_floor q h0]
  constructor
  · exact Int.floor_nonneg.mpr h0
  · calc ⌊q⌋ ≤ ⌊(255 : ℚ)⌋ := Int.floor_le_floor h1
      _ = 255 := by norm_num

theorem satOf_bounds (h : List Nat) (hb : h.getD 2 0 < 256) :
    0.5 ≤ satOf h ∧ satOf h ≤ 0.8 := by
  unfold satOf
  have c0 : (0 : ℚ) ≤ (h.getD 2 0 : ℚ) := Nat.cast_nonneg _
  have c1 : (h.getD 2 0 : ℚ) ≤ 255 := by
    have : h.getD 2 0 ≤ 255 := by omega
    exact_mod_cast this
  constructor <;> nlinarith

theorem lightOf_bounds (h : List Nat) (hb : h.getD 3 0 < 256) :
    0.4 ≤ lightOf h ∧ lightOf h ≤ 0.65 := by
  unfold lightOf
  have c0 : (0 : ℚ) ≤ (h.getD 3 0 : ℚ) := Nat.cast_nonneg _
  have c1 : (h.getD 3 0 : ℚ) ≤ 255 := by
    have : h.getD 3 0 ≤ 255 := by omega
    exact_mod_cast this
  constructor <;> nlinarith

theorem hueOf_lt (h : List Nat) : hueOf h < 360 := Nat.mod_lt _ (by norm_num)

theorem fgColorOf_channel_bounds (h : List Nat) (hb2 : h.getD 2 0 < 256)
    (hb3 : h.getD 3 0 < 256) :
    (0 ≤ (fgColorOf h).1 ∧ (fgColorOf h).1 ≤ 255) ∧
    (0 ≤ (fgColorOf h).2.1 ∧ (fgColorOf h).2.1 ≤ 255) ∧
    (0 ≤ (fgColorOf h).2.2 ∧ (fgColorOf h).2.2 ≤ 255) := by
  obtain ⟨hs0, hs1⟩ := satOf_bounds h hb2
  obtain ⟨hl0, hl1⟩ := lightOf_bounds h hb3
  have hrgb := hls_to_rgb_bounds ((hueOf h : ℚ) / 360) (lightOf h) (satOf h)
    (by linarith) (by linarith) (by linarith) (by linarith)
  obtain ⟨⟨r0, r1⟩, ⟨g0, g1⟩, ⟨b0, b1⟩⟩ := hrgb
  rw [fgColorOf_def]
  refine ⟨pyInt_bounds _ (by nlinarith) (by nlinarith),
    pyInt_bounds _ (by nlinarith) (by nlinarith),
    pyInt_bounds _ (by nlinarith) (by nlinarith)⟩

theorem fgColorOf_eq_floor (h : List Nat) (hb2 : h.getD 2 0 < 256)
    (hb3 : h.getD 3 0 < 256) :
    fgColorOf h =
      (⌊(hls_to_rgb ((hueOf h : ℚ) / 360) (lightOf h) (satOf h)).1 * 255⌋,
       ⌊(hls_to_rgb ((hueOf h : ℚ) / 360) (lightOf h) (satOf h)).2.1 * 255⌋,
       ⌊(hls_to_rgb ((hueOf h : ℚ) / 360) (lightOf h) (satOf h)).2.2 * 255⌋) := by
  obtain ⟨hs0, hs1⟩ := satOf_bounds h hb2
  obtain ⟨hl0, hl1⟩ := lightOf_bounds h hb3
  have hrgb := hls_to_rgb_bounds ((hueOf h : ℚ) / 360) (lightOf h) (satOf h)
    (by linarith) (by linarith) (by linarith) (by linarith)
  obtain ⟨⟨r0, r1⟩, ⟨g0, g1⟩, ⟨b0, b1⟩⟩ := hrgb
  rw [fgColorOf_def, pyInt_eq_floor _ (by nlinarith), pyInt_eq_floor _ (by nlinarith),
    pyInt_eq_floor _ (by nlinarith)]

/-! ## Agreement of the two pattern-bit reads -/

theorem fillGrid_congr (gs half b1 b2 : Nat) (hhalf : half = (gs + 1) / 2)
    (hbits : ∀ i, i < gs * half → b1.testBit i = b2.testBit i) :
    fillGrid gs half b1 = fillGrid gs half b2 := by
  apply List.ext_getElem (by rw [fillGrid_length, fillGrid_length])
  intro r h1 h2
  have hr : r < gs := by rwa [fillGrid_length] at h1
  rw [show (fillGrid gs half b1)[r] = (fillGrid gs half b1).getD r [] from
      (List.getD_eq_getElem _ _ h1).symm,
    show (fillGrid gs half b2)[r] = (fillGrid gs half b2).getD r [] from
      (List.getD_eq_getElem _ _ h2).symm]
  apply List.ext_getElem
    (by rw [fillGrid_row_length _ _ _ _ hr, fillGrid_row_length _ _ _ _ hr])
  intro c hc1 hc2
  have hc : c < gs := by rwa [fillGrid_row_length _ _ _ _ hr] at hc1
  rw [show ((fillGrid gs half b1).getD r [])[c] =
        ((fillGrid gs half b1).getD r []).getD c false from
      (List.getD_eq_getElem _ _ hc1).symm,
    show ((fillGrid gs half b2).getD r [])[c] =
        ((fillGrid gs half b2).getD r []).getD c false from
      (List.getD_eq_getElem _ _ hc2).symm,
    fillGrid_getD gs half b1 hhalf r c hr hc,
    fillGrid_getD gs half b2 hhalf r c hr hc]
  have hbound : ∀ d, d < half → r * half + d < gs * half := by
    intro d hd
    calc r * half + d < r * half + half := by omega
      _ = (r + 1) * half := by ring
      _ ≤ gs * half := Nat.mul_le_mul_right half (by omega)
  by_cases h3 : c < half
  · rw [if_pos h3, if_pos h3, hbits _ (hbound c h3)]
  · have h4 : gs - 1 - c < half := by omega
    rw [if_neg h3, if_neg h3, hbits _ (hbound _ h4)]

theorem bits_agree_below16 (name : List Nat) :
    ∀ i, i < 16 →
      ((sha256 name).getD 4 0 ||| ((sha256 name).getD 5 0 <<< 8)).testBit i =
        (int_from_bytes_le (((sha256 name).drop 4).take 4)).testBit i := by
  intro i hi
  rw [lor_shift8_eq _ _ (sha256_getD_lt name 4), sha256_bits_eq]
  have h4 := sha256_getD_lt name 4
  have h5 := sha256_getD_lt name 5
  rw [show (sha256 name).getD 4 0 + (sha256 name).getD 5 0 * 256 =
      ((sha256 name).getD 4 0 + 256 * ((sha256 name).getD 5 0 +
        256 * ((sha256 name).getD 6 0 + 256 * (sha256 name).getD 7 0))) % 2 ^ 16 by
    omega]
  rw [Nat.testBit_mod_two_pow]
  simp [hi]

/-! ## Claim theorems

Batteries marks the `Rat` arithmetic operations `@[irreducible]`; re-allowing
unfolding lets `decide` evaluate concrete color computations. -/

attribute [local semireducible] Rat.mul Rat.add Rat.sub Rat.inv Rat.ofScientific

/-- C1: for every name (as UTF-8 bytes) and every grid size, two calls of the
derivation with the same `(name, grid_size)` return identical `(color, grid)`
pairs.  The embedding of `identicon_data` is a pure function of its two
arguments — it reads no state and uses no nondeterminism — so any two
invocations with equal arguments yield equal results. -/
theorem claim1_determinism (n1 n2 : List Nat) (gs1 gs2 : Nat)
    (hn : n1 = n2) (hgs : gs1 = gs2) :
    identicon_data n1 gs1 = identicon_data n2 gs2 := by
  rw [hn, hgs]

/-- Witness for C1 at `name = "main"` (UTF-8 `[109, 97, 105, 110]`),
`grid_size = 5`. -/
theorem claim1_witness :
    ([109, 97, 105, 110] : List Nat) = [109, 97, 105, 110] ∧ (5 : Nat) = 5 ∧
      identicon_data [109, 97, 105, 110] 5 = identicon_data [109, 97, 105, 110] 5 :=
  ⟨rfl, rfl, claim1_determinism [109, 97, 105, 110] [109, 97, 105, 110] 5 5 rfl rfl⟩

/-- C2: for every name and every positive odd `grid_size`, the returned grid
is horizontally mirror-symmetric: `grid[row][col] = grid[row][gs-1-col]` for
every `row < gs` and `col < gs`. -/
theorem claim2_mirror_symmetry (name : List Nat) (gs : Nat)
    (_hodd : gs % 2 = 1) (_hpos : 0 < gs) (row col : Nat)
    (hr : row < gs) (hc : col < gs) :
    (((identicon_data name gs).2).getD row []).getD col false =
      (((identicon_data name gs).2).getD row []).getD (gs - 1 - col) false := by
  rw [show (identicon_data name gs).2 =
      fillGrid gs ((gs + 1) / 2)
        (int_from_bytes_le (((sha256 name).drop 4).take 4)) from rfl]
  exact fillGrid_symm gs ((gs + 1) / 2) _ rfl row col hr hc

/-- Witness for C2 at `name = "main"`, `grid_size = 5`, `row = 1`, `col = 0`. -/
theorem claim2_witness :
    (5 : Nat) % 2 = 1 ∧ (0 : Nat) < 5 ∧ (1 : Nat) < 5 ∧ (0 : Nat) < 5 ∧
      (((identicon_data [109, 97, 105, 110] 5).2).getD 1 []).getD 0 false =
        (((identicon_data [109, 97, 105, 110] 5).2).getD 1 []).getD 4 false :=
  ⟨rfl, by decide, by decide, by decide,
    claim2_mirror_symmetry [109, 97, 105, 110] 5 rfl (by decide) 1 0
      (by decide) (by decide)⟩

/-- C3 counterexample: the claim says `identicon_data("x", 4)` (even grid
size) and `identicon_data("x", 0)` signal an InvalidArgument error rather
than returning a `(color, grid)` result.  The source performs no
validation of `grid_size` whatsoever: both calls return normally, with the
concrete results computed here ("x" is UTF-8 `[120]`). -/
theorem claim3_counterexample :
    identicon_data [120] 4 =
      ((56, 180, 166),
       [[true, true, true, true], [true, false, false, true],
        [true, true, true, true], [false, true, true, false]]) ∧
      identicon_data [120] 0 = ((56, 180, 166), []) := by
  constructor
  · decide
  · decide

/-- C3 amended: `identicon_data` performs no grid-size validation; calling it
with even `grid_size = 4` or with `grid_size = 0` returns a `(color, grid)`
pair normally — an empty grid for size 0 and a 4×4 grid for size 4. -/
theorem claim3_amended (name : List Nat) :
    (identicon_data name 0).2 = [] ∧
      ((identicon_data name 4).2).length = 4 ∧
      ∀ r, r < 4 → (((identicon_data name 4).2).getD r []).length = 4 := by
  refine ⟨rfl, fillGrid_length 4 2 _, fun r hr => fillGrid_row_length 4 2 _ r hr⟩

/-- Witness for the amended C3 at `name = "x"` (UTF-8 `[120]`), `r = 2`. -/
theorem claim3_witness :
    (identicon_data [120] 0).2 = [] ∧
      ((identicon_data [120] 4).2).length = 4 ∧
      (2 : Nat) < 4 ∧ (((identicon_data [120] 4).2).getD 2 []).length = 4 :=
  ⟨(claim3_amended [120]).1, (claim3_amended [120]).2.1, by decide,
    (claim3_amended [120]).2.2 2 (by decide)⟩

/-- C4: for every name and positive odd `grid_size`, with
`half = (grid_size+1)/2` and `bits` the little-endian integer read from
digest bytes 4..8, every cell of the left half (including center) satisfies
`grid[row][col] = (((bits >> (row*half+col)) & 1) != 0)`, and its mirror
`grid[row][grid_size-1-col]` holds the same value. -/
theorem claim4_grid_fill (name : List Nat) (gs : Nat)
    (hodd : gs % 2 = 1) (_hpos : 0 < gs) (row col : Nat)
    (hr : row < gs) (hc : col < (gs + 1) / 2) :
    ((((identicon_data name gs).2).getD row []).getD col false = true ↔
        ((int_from_bytes_le (((sha256 name).drop 4).take 4)) >>>
          (row * ((gs + 1) / 2) + col)) &&& 1 ≠ 0) ∧
      (((identicon_data name gs).2).getD row []).getD (gs - 1 - col) false =
        (((identicon_data name gs).2).getD row []).getD col false := by
  rw [show (identicon_data name gs).2 =
      fillGrid gs ((gs + 1) / 2)
        (int_from_bytes_le (((sha256 name).drop 4).take 4)) from rfl]
  have hcgs : col < gs := by omega
  constructor
  · rw [fillGrid_getD _ _ _ rfl row col hr hcgs, if_pos hc]
    exact (shiftRight_and_one _ _).symm
  · exact (fillGrid_symm gs ((gs + 1) / 2) _ rfl row col hr hcgs).symm

/-- Witness for C4 at `name = "main"`, `grid_size = 5`, `row = 1`, `col = 0`. -/
theorem claim4_witness :
    (5 : Nat) % 2 = 1 ∧ (0 : Nat) < 5 ∧ (1 : Nat) < 5 ∧ (0 : Nat) < (5 + 1) / 2 ∧
      (((((identicon_data [109, 97, 105, 110] 5).2).getD 1 []).getD 0 false = true ↔
          ((int_from_bytes_le (((sha256 [109, 97, 105, 110]).drop 4).take 4)) >>>
            (1 * ((5 + 1) / 2) + 0)) &&& 1 ≠ 0) ∧
        (((identicon_data [109, 97, 105, 110] 5).2).getD 1 []).getD (5 - 1 - 0) false =
          (((identicon_data [109, 97, 105, 110] 5).2).getD 1 []).getD 0 false) :=
  ⟨rfl, by decide, by decide, by decide,
    claim4_grid_fill [109, 97, 105, 110] 5 rfl (by decide) 1 0 (by decide) (by decide)⟩

/-- C5: for every name, the internal hue equals the little-endian 16-bit read
of digest bytes 0 and 1 reduced modulo 360 (`digest[0]` low byte, `digest[1]`
high byte), an integer in `[0, 359]`. -/
theorem claim5_hue (name : List Nat) :
    hueOf (sha256 name) =
      ((sha256 name).getD 0 0 + (sha256 name).getD 1 0 * 256) % 360 ∧
      hueOf (sha256 name) ≤ 359 := by
  constructor
  · unfold hueOf
    rw [lor_shift8_eq _ _ (sha256_getD_lt name 0)]
  · have := hueOf_lt (sha256 name)
    omega

/-- C6: for every name and valid grid size, the three RGB channels of the
returned color are integers in `[0, 255]`, and the internal derivation values
satisfy `hue ∈ [0, 359]`, `sat ∈ [0.5, 0.8]`, `light ∈ [0.4, 0.65]`. -/
theorem claim6_ranges (name : List Nat) (gs : Nat)
    (_hodd : gs % 2 = 1) (_hpos : 0 < gs) :
    (0 ≤ ((identicon_data name gs).1).1 ∧ ((identicon_data name gs).1).1 ≤ 255) ∧
    (0 ≤ ((identicon_data name gs).1).2.1 ∧ ((identicon_data name gs).1).2.1 ≤ 255) ∧
    (0 ≤ ((identicon_data name gs).1).2.2 ∧ ((identicon_data name gs).1).2.2 ≤ 255) ∧
    hueOf (sha256 name) ≤ 359 ∧
    (0.5 ≤ satOf (sha256 name) ∧ satOf (sha256 name) ≤ 0.8) ∧
    (0.4 ≤ lightOf (sha256 name) ∧ lightOf (sha256 name) ≤ 0.65) := by
  rw [show (identicon_data name gs).1 = fgColorOf (sha256 name) from rfl]
  have hb2 := sha256_getD_lt name 2
  have hb3 := sha256_getD_lt name 3
  obtain ⟨c1, c2, c3⟩ := fgColorOf_channel_bounds (sha256 name) hb2 hb3
  refine ⟨c1, c2, c3, ?_, satOf_bounds _ hb2, lightOf_bounds _ hb3⟩
  have := hueOf_lt (sha256 name)
  omega

/-- Witness for C6 at `name = ""` (empty byte sequence), `grid_size = 5`. -/
theorem claim6_witness :
    (5 : Nat) % 2 = 1 ∧ (0 : Nat) < 5 ∧
      ((0 ≤ ((identicon_data [] 5).1).1 ∧ ((identicon_data [] 5).1).1 ≤ 255) ∧
       (0 ≤ ((identicon_data [] 5).1).2.1 ∧ ((identicon_data [] 5).1).2.1 ≤ 255) ∧
       (0 ≤ ((identicon_data [] 5).1).2.2 ∧ ((identicon_data [] 5).1).2.2 ≤ 255) ∧
       hueOf (sha256 []) ≤ 359 ∧
       (0.5 ≤ satOf (sha256 []) ∧ satOf (sha256 []) ≤ 0.8) ∧
       (0.4 ≤ lightOf (sha256 []) ∧ lightOf (sha256 []) ≤ 0.65)) :=
  ⟨rfl, by decide, claim6_ranges [] 5 rfl (by decide)⟩

/-- C7: for every name (and any grid size), each RGB channel of the returned
color is the floor (truncation downward, not rounding) of 255 times the
corresponding HLS-to-RGB channel value. -/
theorem claim7_floor (name : List Nat) (gs : Nat) :
    (identicon_data name gs).1 =
      (⌊(hls_to_rgb ((hueOf (sha256 name) : ℚ) / 360) (lightOf (sha256 name))
          (satOf (sha256 name))).1 * 255⌋,
       ⌊(hls_to_rgb ((hueOf (sha256 name) : ℚ) / 360) (lightOf (sha256 name))
          (satOf (sha256 name))).2.1 * 255⌋,
       ⌊(hls_to_rgb ((hueOf (sha256 name) : ℚ) / 360) (lightOf (sha256 name))
          (satOf (sha256 name))).2.2 * 255⌋) := by
  rw [show (identicon_data name gs).1 = fgColorOf (sha256 name) from rfl]
  exact fgColorOf_eq_floor _ (sha256_getD_lt name 2) (sha256_getD_lt name 3)

/-- C8: the derivation accepts the empty string: `identicon_data("", 5)`
returns a valid `(color, grid)` output — computed here concretely from the
SHA-256 digest of the empty byte sequence, exactly as for any other input —
and repeated calls give the identical result. -/
theorem claim8_empty_string :
    identicon_data [] 5 =
      ((156, 31, 205),
       [[false, false, false, false, false], [true, true, false, true, true],
        [false, true, false, true, false], [false, true, true, true, false],
        [true, true, true, true, true]]) ∧
      identicon_data [] 5 = identicon_data [] 5 :=
  ⟨by decide, rfl⟩

/-- C9: for every name, the two implementations agree at grid size 5:
`generate_identicon_data` (identicon_gen.py, two-byte pattern read from
digest bytes 4..6) returns the same `(color, grid)` pair as
`identicon_data(name, 5)` (hybrid_gen.py, four-byte little-endian read from
digest bytes 4..8), because a 5×5 grid consumes only bit indices 0..14, on
which the two reads coincide. -/
theorem claim9_equivalence (name : List Nat) :
    generate_identicon_data name = identicon_data name 5 := by
  have hgrid : fillGrid 5 3 ((sha256 name).getD 4 0 ||| ((sha256 name).getD 5 0 <<< 8)) =
      fillGrid 5 3 (int_from_bytes_le (((sha256 name).drop 4).take 4)) := by
    apply fillGrid_congr 5 3 _ _ rfl
    intro i hi
    exact bits_agree_below16 name i (by omega)
  show (fgColorOf (sha256 name),
      fillGrid 5 3 ((sha256 name).getD 4 0 ||| ((sha256 name).getD 5 0 <<< 8))) =
    (fgColorOf (sha256 name),
      fillGrid 5 3 (int_from_bytes_le (((sha256 name).drop 4).take 4)))
  rw [hgrid]

/-- C10: for every name and every odd `grid_size ≥ 9`, every grid cell whose
loop bit index `row * half + col` (with `col < half`) is at least 32 comes
out `false`, as does its mirror: only the 32 bits of digest bytes 4..8 are
ever consumed, so higher-indexed pattern positions are unset regardless of
the input. -/
theorem claim10_high_bits_false (name : List Nat) (gs : Nat)
    (hodd : gs % 2 = 1) (h9 : 9 ≤ gs) (row col : Nat)
    (hr : row < gs) (hc : col < (gs + 1) / 2)
    (hbi : 32 ≤ row * ((gs + 1) / 2) + col) :
    (((identicon_data name gs).2).getD row []).getD col false = false ∧
      (((identicon_data name gs).2).getD row []).getD (gs - 1 - col) false = false := by
  have htb : ∀ j, 32 ≤ j →
      (int_from_bytes_le (((sha256 name).drop 4).take 4)).testBit j = false := by
    intro j hj
    apply Nat.testBit_eq_false_of_lt
    calc int_from_bytes_le (((sha256 name).drop 4).take 4)
        < 4294967296 := sha256_bits_lt name
      _ = 2 ^ 32 := by norm_num
      _ ≤ 2 ^ j := Nat.pow_le_pow_right (by norm_num) hj
  rw [show (identicon_data name gs).2 =
      fillGrid gs ((gs + 1) / 2)
        (int_from_bytes_le (((sha256 name).drop 4).take 4)) from rfl]
  constructor
  · rw [fillGrid_getD _ _ _ rfl row col hr (by omega), if_pos hc]
    exact htb _ hbi
  · rw [fillGrid_getD _ _ _ rfl row (gs - 1 - col) hr (by omega)]
    by_cases h2 : gs - 1 - col < (gs + 1) / 2
    · rw [if_pos h2, show gs - 1 - col = col by omega]
      exact htb _ hbi
    · rw [if_neg h2, show gs - 1 - (gs - 1 - col) = col by omega]
      exact htb _ hbi

/-- Witness for C10 at `name = ""`, `grid_size = 9`, `row = 6`, `col = 3`
(bit index `6 * 5 + 3 = 33 ≥ 32`). -/
theorem claim10_witness :
    (9 : Nat) % 2 = 1 ∧ (9 : Nat) ≤ 9 ∧ (6 : Nat) < 9 ∧ (3 : Nat) < (9 + 1) / 2 ∧
      32 ≤ 6 * ((9 + 1) / 2) + 3 ∧
      ((((identicon_data [] 9).2).getD 6 []).getD 3 false = false ∧
        (((identicon_data [] 9).2).getD 6 []).getD (9 - 1 - 3) false = false) :=
  ⟨rfl, by decide, by decide, by decide, by decide,
    claim10_high_bits_false [] 9 rfl (by decide) 6 3 (by decide) (by decide) (by decide)⟩

end Identicon
